import Mathlib

/-!
Verification of the quark-engine Rizin extraction core.

Shallow embedding of `quark/core/rzapkinfo.py`, `quark/core/struct/methodobject.py`
and `quark/utils/tools.py`.  Python strings are modelled as Lean `String`; all
Python string primitives used by the source (slicing, `in`, `startswith`,
`split`, `index`, `rindex`, the few regular expressions) are implemented as
executable functions over `String.data` below, so that every embedded function
computes.  Fallible Python code (uncaught exceptions) is modelled with
`Except String`.
-/

set_option maxRecDepth 20000
set_option linter.unusedVariables false

deriving instance DecidableEq for Except

namespace Quark

/-! ## Python string primitives -/

/-- Boolean prefix test on char lists (`l` begins with `p`). -/
def isPre : List Char → List Char → Bool
  | [], _ => true
  | _ :: _, [] => false
  | a :: asr, b :: bs => a == b && isPre asr bs

/-- Boolean suffix test on char lists. -/
def isSuf (s l : List Char) : Bool := isPre s.reverse l.reverse

/-- Index of the first occurrence of `sub` in `l` (Python `str.find`). -/
def findSub (sub : List Char) : List Char → Option Nat
  | [] => if isPre sub [] then some 0 else none
  | a :: t => if isPre sub (a :: t) then some 0 else (findSub sub t).map (· + 1)

/-- Index of the last occurrence of `sub` in `l` (Python `str.rfind`). -/
def rfindSub (sub : List Char) : List Char → Option Nat
  | [] => if isPre sub [] then some 0 else none
  | a :: t =>
    match rfindSub sub t with
    | some i => some (i + 1)
    | none => if isPre sub (a :: t) then some 0 else none

/-- Python `prefix in s` for single- and multi-character needles. -/
def pyIn (sub s : String) : Bool := (findSub sub.data s.data).isSome

/-- Python `s.startswith(pre)`. -/
def pyStartswith (s pre : String) : Bool := isPre pre.data s.data

/-- Python `s.endswith(suf)`. -/
def pyEndswith (s suf : String) : Bool := isSuf suf.data s.data

/-- Python `s[n:]`. -/
def strDrop (s : String) (n : Nat) : String := String.mk (s.data.drop n)

/-- Python `s[:n]` for `0 ≤ n`. -/
def strTake (s : String) (n : Nat) : String := String.mk (s.data.take n)

/-- Python `s[:-n]` (drop the last `n` characters, empty-safe). -/
def strDropRight (s : String) (n : Nat) : String :=
  String.mk (s.data.take (s.data.length - n))

def pyStrip (s : String) : String :=
  String.mk (((s.data.dropWhile Char.isWhitespace).reverse.dropWhile Char.isWhitespace).reverse)

/-- Python `int(s)`: optional surrounding whitespace, optional sign, one or
more decimal digits.  `none` models the `ValueError` raised otherwise. -/
def pyInt (s : String) : Option Int :=
  let t := (s.data.dropWhile Char.isWhitespace).reverse.dropWhile Char.isWhitespace |>.reverse
  let (neg, digits) :=
    match t with
    | '-' :: r => (true, r)
    | '+' :: r => (false, r)
    | r => (false, r)
  if digits = [] ∨ ¬ digits.all Char.isDigit then none
  else
    let n : Nat := digits.foldl (fun acc c => acc * 10 + (c.toNat - '0'.toNat)) 0
    some (if neg then -(n : Int) else (n : Int))

/-- Python `range(a, b)` over ints, as the list `[a, a+1, ..., b-1]`. -/
def pyRange (a b : Int) : List Int :=
  (List.range (b - a).toNat).map (fun k => a + (k : Int))

/-- Python `sep.join(parts)`. -/
def joinSep (sep : String) : List String → String
  | [] => ""
  | [x] => x
  | x :: xs => x ++ sep ++ joinSep sep xs

/-- Worker for Python `s.split(sep)`, non-empty literal separator: scans left
to right; a positive `skip` count consumes the remaining characters of a
separator occurrence already matched. -/
def splitSepGo (sep : List Char) : List Char → List Char → Nat → List (List Char)
  | [], acc, _ => [acc.reverse]
  | _ :: t, acc, Nat.succ k => splitSepGo sep t acc k
  | c :: t, acc, 0 =>
    if isPre sep (c :: t) then acc.reverse :: splitSepGo sep t [] (sep.length - 1)
    else splitSepGo sep t (c :: acc) 0

/-- Python `s.split(sep)` for a fixed non-empty separator. -/
def pySplitSep (s sep : String) : List String :=
  (splitSepGo sep.data s.data [] 0).map String.mk

/-- Python `re.split` on runs of delimiter characters (used with `[{},]+` and
`[:.]+`): consecutive delimiters produce a single split point, and a leading
or trailing delimiter produces an empty field.  `inRun` records whether the
previous character was part of the current delimiter run. -/
def splitRunsGo (isDelim : Char → Bool) : List Char → List Char → Bool → List (List Char)
  | [], acc, _ => [acc.reverse]
  | c :: t, acc, inRun =>
    if isDelim c then
      if inRun then splitRunsGo isDelim t acc true
      else acc.reverse :: splitRunsGo isDelim t [] true
    else splitRunsGo isDelim t (c :: acc) false

def splitRuns (isDelim : Char → Bool) (l : List Char) : List (List Char) :=
  splitRunsGo isDelim l [] false

/-- Python `re.sub(pat, rep, s)` for a fixed non-empty literal pattern:
replace all non-overlapping occurrences, scanning left to right; a positive
`skip` count consumes the tail of an occurrence already matched. -/
def replaceGo (pat rep : List Char) : List Char → Nat → List Char
  | [], _ => []
  | _ :: t, Nat.succ k => replaceGo pat rep t k
  | c :: t, 0 =>
    if isPre pat (c :: t) then rep ++ replaceGo pat rep t (pat.length - 1)
    else c :: replaceGo pat rep t 0

def replaceAllList (pat rep l : List Char) : List Char := replaceGo pat rep l 0

/-! ## Data model (`methodobject.py`, rizin JSON records) -/

/-- `RizinCache = namedtuple("rizin_cache", "address dexindex is_imported")`. -/
structure RizinCache where
  address : Int
  dexindex : Nat
  is_imported : Bool
deriving DecidableEq

/-- `MethodObject` dataclass: the identity triple plus the non-compared
`access_flags` and `cache` fields (`field(compare=False)` in the source). -/
structure MethodObject where
  class_name : String
  name : String
  descriptor : String
  access_flags : Option (List String) := none
  cache : Option RizinCache := none
deriving DecidableEq

/-- Equality generated by `@dataclass` for `MethodObject`: it compares exactly
the fields with `compare=True`, i.e. the triple. -/
def methodEq (a b : MethodObject) : Bool :=
  decide (a.class_name = b.class_name ∧ a.name = b.name ∧ a.descriptor = b.descriptor)

/-- The tuple that `@dataclass(unsafe_hash=True)` hashes: the `compare=True`
fields, in declaration order. -/
def methodHashKey (m : MethodObject) : String × String × String :=
  (m.class_name, m.name, m.descriptor)

/-- Python `set.add` on a set of `MethodObject`: a no-op when an element equal
under the dataclass equality is already present. -/
def setAdd (l : List MethodObject) (m : MethodObject) : List MethodObject :=
  if l.any (fun x => methodEq x m) then l else l ++ [m]

/-- `BytecodeObject(mnemonic, registers, parameter)` as produced by
`_parse_smali`: `registers` is `None` for a bare mnemonic line. -/
structure BytecodeObject where
  mnemonic : String
  registers : Option (List String)
  parameter : Option String
deriving DecidableEq

/-! ## Type Signature Converter (`_convert_type_to_type_signature`) -/

/-- `PRIMITIVE_TYPE_MAPPING` lookup. -/
def primitiveMap : String → Option String
  | "void" => some "V"
  | "boolean" => some "Z"
  | "byte" => some "B"
  | "char" => some "C"
  | "short" => some "S"
  | "int" => some "I"
  | "long" => some "J"
  | "float" => some "F"
  | "double" => some "D"
  | _ => none

/-- Body of `_convert_type_to_type_signature`, with an explicit fuel argument
so the recursion (on ever-shorter strings) is structural.  Branches in source
order: empty input returned unchanged, trailing `[]`, leading `[`, variadic
`...` (first occurrence), primitive table, dotted/underscored name, bare
`java.lang` name.  Any fuel exceeding the string length is sufficient. -/
def convertF : Nat → String → String
  | 0, raw_type => raw_type
  | fuel + 1, raw_type =>
    if raw_type.data = [] then raw_type
    else if pyEndswith raw_type "[]" = true then
      "[" ++ convertF fuel (strDropRight raw_type 2)
    else if pyStartswith raw_type "[" = true then
      "[" ++ convertF fuel (strDrop raw_type 1)
    else
      match findSub "...".data raw_type.data with
      | some i => "[" ++ convertF fuel (strTake raw_type i)
      | none =>
        match primitiveMap raw_type with
        | some p => p
        | none =>
          if pyIn "." raw_type = true ∨ pyIn "_" raw_type = true then
            "L" ++ String.mk (raw_type.data.map
              (fun c => if c = '.' then '/' else if c = '_' then '$' else c)) ++ ";"
          else "Ljava/lang/" ++ raw_type ++ ";"

/-- `_convert_type_to_type_signature(raw_type)`: Java-language type name to
JVM type signature. -/
def _convert_type_to_type_signature (raw_type : String) : String :=
  convertF (raw_type.data.length + 1) raw_type

/-! ## `_escape_str_in_rizin_manner` -/

/-- Replace each of `<`, `>`, `$` (the `RIZIN_ESCAPE_CHAR_LIST`) by `_`. -/
def _escape_str_in_rizin_manner (raw_str : String) : String :=
  String.mk (raw_str.data.map
    (fun c => if c = '<' ∨ c = '>' ∨ c = '$' then '_' else c))

/-! ## `descriptor_to_androguard_format` (`quark/utils/tools.py`) -/

/-- Scan for the terminating `;` of the lazy pattern `L.+?;`: the least index
`m ≥ 1` with `l[m] = ';'` and no newline before it (`.` does not match a
newline).  `idx` is the current scan position. -/
def findSemiGe1 : List Char → Nat → Option Nat
  | [], _ => none
  | c :: t, idx =>
    if c = '\n' then none
    else if c = ';' ∧ 1 ≤ idx then some idx
    else findSemiGe1 t (idx + 1)

/-- `re.findall(r"L.+?;|[ZBCSIJFD]|\[", arg_str)`: scan left to right; at
each position try the lazy `L.+?;` alternative first, then the single-char
classes; on failure advance one character.  A positive `skip` count consumes
the tail of a multi-character match. -/
def findallGo : List Char → Nat → List (List Char)
  | [], _ => []
  | _ :: t, Nat.succ k => findallGo t k
  | c :: t, 0 =>
    if c = 'L' then
      match findSemiGe1 t 0 with
      | some m => ('L' :: t.take (m + 1)) :: findallGo t (m + 1)
      | none => findallGo t 0
    else if c = 'Z' ∨ c = 'B' ∨ c = 'C' ∨ c = 'S' ∨ c = 'I' ∨ c = 'J' ∨ c = 'F' ∨ c = 'D' then
      [c] :: findallGo t 0
    else if c = '[' then
      [c] :: findallGo t 0
    else findallGo t 0

def findallArgs (l : List Char) : List (List Char) := findallGo l 0

/-- `descriptor_to_androguard_format(descriptor)`: raises `ValueError` when
`"("` or `")"` is missing; otherwise splits at the first `)`, re-extracts the
argument tokens, joins them with spaces and glues `[` back onto its element
type. -/
def descriptor_to_androguard_format (descriptor : String) : Except String String :=
  if pyIn "(" descriptor = false ∨ pyIn ")" descriptor = false then
    .error ("Invalid descriptor. " ++ descriptor)
  else
    match findSub ")".data descriptor.data with
    | none => .error ("Invalid descriptor. " ++ descriptor) -- unreachable: ")" ∈ descriptor
    | some delimiter =>
      let arg_str := descriptor.data.take delimiter
      let args := findallArgs arg_str
      let new_descriptor :=
        "(".data ++ (joinSep " " (args.map String.mk)).data ++ descriptor.data.drop delimiter
      .ok (String.mk (replaceAllList "[ ".data "[".data new_descriptor))

/-! ## `_parse_smali` -/

/-- Python `smali.split(maxsplit=1)`: split on whitespace runs, keeping at
most two parts; leading whitespace is discarded and the second part keeps its
trailing whitespace. -/
def pySplitMax1 (s : String) : List String :=
  let l := s.data.dropWhile Char.isWhitespace
  let mn := l.takeWhile (fun c => ¬ c.isWhitespace)
  let rest := (l.dropWhile (fun c => ¬ c.isWhitespace)).dropWhile Char.isWhitespace
  if mn = [] then []
  else if rest = [] then [String.mk mn]
  else [String.mk mn, String.mk rest]

/-- `re.sub(r"\.", "->", parameter, count=1)`: rewrite the first `.` only. -/
def replaceFirstDot : List Char → List Char
  | [] => []
  | '.' :: t => '-' :: '>' :: t
  | c :: t => c :: replaceFirstDot t

/-- `_parse_smali(smali)`: one line of rizin disassembly to a
`BytecodeObject`.  `Except.error` models the uncaught `ValueError`s. -/
def _parse_smali (smali : String) : Except String BytecodeObject :=
  if smali = "" then .error "Argument cannot be empty."
  else if pyIn " " smali = false then .ok ⟨smali, none, none⟩
  else
    match pySplitMax1 smali with
    | [mnemonic, args0] =>
      let args :=
        (((splitRuns (fun c => c == '{' || c == '}' || c == ',') args0.data).map
          String.mk).filter (fun a => a ≠ "")).map pyStrip
      -- Remove the parameter at the last
      let pa : Option String × List String :=
        match args.getLast? with
        | some lastArg =>
          if pyStartswith lastArg "v" = false then
            (some (if pyStartswith mnemonic "invoke" = true then
                     String.mk (replaceFirstDot lastArg.data)
                   else lastArg),
             args.dropLast)
          else (none, args)
        | none => (none, args)
      let parameter := pa.1
      let args1 := pa.2
      match args1 with
      | [a] =>
        if pyIn ":" a = true ∨ pyIn ".." a = true then
          -- Ranged registers
          let pieces :=
            ((splitRuns (fun c => c == ':' || c == '.') a.data).map String.mk).filter
              (fun r => r ≠ "")
          match pieces.mapM (fun r => pyInt (strDrop r 1)) with
          | none => .error ("invalid literal for int: " ++ a)
          | some ints =>
            if pyIn ".." a = true then
              match ints with
              | i0 :: i1 :: _ =>
                .ok ⟨mnemonic, some ((pyRange i0 (i1 + 1)).map (fun k => "v" ++ toString k)),
                     parameter⟩
              | _ => .error "IndexError: range bound missing"
            else .ok ⟨mnemonic, some (ints.map (fun k => "v" ++ toString k)), parameter⟩
        else
          -- Simple registers (single token)
          match [a].mapM (fun r => pyInt (strDrop r 1)) with
          | none => .error ("Cannot parse bytecode. Unknown smali " ++ smali ++ ".")
          | some ints => .ok ⟨mnemonic, some (ints.map (fun k => "v" ++ toString k)), parameter⟩
      | [] => .ok ⟨mnemonic, some [], parameter⟩
      | args' =>
        -- Simple registers (several tokens)
        match args'.mapM (fun r => pyInt (strDrop r 1)) with
        | none => .error ("Cannot parse bytecode. Unknown smali " ++ smali ++ ".")
        | some ints => .ok ⟨mnemonic, some (ints.map (fun k => "v" ++ toString k)), parameter⟩
    | _ => .error "ValueError: not enough values to unpack"

/-! ## Symbol demangler (`_parse_method_from_isj_obj`) -/

/-- One record of the JSON array returned by the rizin commands `isj` /
`is.j`, restricted to the keys the source reads.  `type` is accessed with
`.get`, hence optional. -/
structure IsjObj where
  type : Option String
  name : String
  realname : String
  is_imported : Bool
  flagname : String
  vaddr : Int
deriving DecidableEq

/-- First match of `re.finditer("\\(.*\\).*", name)`: the suffix of the line
starting at the first `(` that is followed by a `)` on the same line (`.`
does not match a newline), extending to the end of that line. -/
def findParenMatch : List Char → Option (List Char)
  | [] => none
  | c :: t =>
    if c = '(' then
      let line := (c :: t).takeWhile (fun d => d ≠ '\n')
      if (line.drop 1).contains ')' then some line else findParenMatch t
    else findParenMatch t

/-- Membership of the second character class of the return-type pattern
`[A-Za-zL][A-Za-z0-9L/\;[\]$.]+ `. -/
def isRetChar (c : Char) : Bool :=
  c.isAlpha || c.isDigit || c == '/' || c == ';' || c == '[' || c == ']' || c == '$' || c == '.'

/-- First match of `re.finditer("[A-Za-zL][A-Za-z0-9L/\\;[\\]$.]+ ", name)`,
already stripped of its single trailing space (the source applies
`.strip()` right after).  A match needs a letter, a non-empty greedy run of
`isRetChar` characters, then a space. -/
def findRetType : List Char → Option (List Char)
  | [] => none
  | c :: t =>
    if c.isAlpha then
      let run := t.takeWhile isRetChar
      if run ≠ [] ∧ (t.drop run.length).head? = some ' ' then some (c :: run)
      else findRetType t
    else findRetType t

/-- Last match of `re.finditer("_+[A-Za-z]+", flag_name)`: non-overlapping
scan from the left, keeping the final match.  A positive `skip` count
consumes the tail of the match just recorded. -/
def underscoreGo : List Char → Nat → Option (List Char)
  | [], _ => none
  | _ :: t, Nat.succ k => underscoreGo t k
  | c :: t, 0 =>
    if c = '_' then
      let us := (c :: t).takeWhile (fun d => d = '_')
      let rest := (c :: t).drop us.length
      let ls := rest.takeWhile Char.isAlpha
      if ls ≠ [] then
        let m := us ++ ls
        match underscoreGo t (us.length + ls.length - 1) with
        | some m' => some m'
        | none => some m
      else underscoreGo t 0
    else underscoreGo t 0

def lastUnderscoreMatch (l : List Char) : Option (List Char) := underscoreGo l 0

/-- The `while flag_name.startswith("sym.") or flag_name.startswith("imp.")`
prefix-stripping loop, written as structural recursion on the characters. -/
def stripSymImpL : List Char → List Char
  | 's' :: 'y' :: 'm' :: '.' :: t => stripSymImpL t
  | 'i' :: 'm' :: 'p' :: '.' :: t => stripSymImpL t
  | l => l

def stripSymImp (s : String) : String := String.mk (stripSymImpL s.data)

/-- Tail of `_parse_method_from_isj_obj` after the descriptor text has been
assembled: descriptor-format conversion (whose `ValueError` propagates),
method-name escaping, the `sym.imp.clone` special case, method-name dropping
from the flag, prefix stripping and class-name conversion. -/
def parseIsjTail (json_obj : IsjObj) (dexindex : Nat) (raw_argument_str : String) :
    Except String (Option MethodObject) :=
  match descriptor_to_androguard_format raw_argument_str with
  | .error e => .error e
  | .ok descriptor =>
    let method_name := json_obj.realname
    let is_imported := json_obj.is_imported
    -- Test if the class name is truncated (the mismatch only logs a warning)
    let e0 := _escape_str_in_rizin_manner method_name
    let escaped_method_name := if pyEndswith e0 "_" = true then strDropRight e0 1 else e0
    let flag_name := json_obj.flagname
    -- sym.imp.clone does not belong to a class
    if flag_name = "sym.imp.clone" then
      .ok (some ⟨"", "clone", "()Ljava/lang/Object;", none,
                 some ⟨json_obj.vaddr, dexindex, is_imported⟩⟩)
    else
      -- Drop the method name
      match lastUnderscoreMatch flag_name.data with
      | none => .ok none  -- damaged flag: logged and skipped
      | some mtext =>
        let flag2 : String :=
          match rfindSub mtext flag_name.data with
          | some i => strTake flag_name i
          | none => strDropRight flag_name 1  -- Python rfind = -1, slice [:-1]
        -- Drop the prefixes sym. and imp.
        let flag3 := stripSymImp flag2
        let class_name := _convert_type_to_type_signature flag3
        .ok (some ⟨class_name, method_name, descriptor, none,
                   some ⟨json_obj.vaddr, dexindex, is_imported⟩⟩)

/-- `_parse_method_from_isj_obj(json_obj, dexindex)`: `.ok none` models the
`return None` paths, `.error` the propagation of an uncaught `ValueError`
from `descriptor_to_androguard_format`. -/
def _parse_method_from_isj_obj (json_obj : IsjObj) (dexindex : Nat) :
    Except String (Option MethodObject) :=
  if json_obj.type ≠ some "FUNC" ∧ json_obj.type ≠ some "METH" then .ok none
  else
    match findParenMatch json_obj.name.data with
    | none => .ok none
    | some raw0 =>
      if pyEndswith (String.mk raw0) ")" = true then
        -- Convert Java language types to JVM type signatures
        match findRetType json_obj.name.data with
        | none => .ok none  -- unresolved method signature (printed and skipped)
        | some rt =>
          let inner := strDrop (strDropRight (String.mk raw0) 1) 1
          let arguments := (pySplitSep inner ", ").map _convert_type_to_type_signature
          let raw2 := "(" ++ joinSep " " arguments ++ ")"
              ++ _convert_type_to_type_signature (String.mk rt)
          parseIsjTail json_obj dexindex raw2
      else parseIsjTail json_obj dexindex (String.mk raw0)

/-! ## Analysis sessions and cross-reference resolution -/

/-- One `axtj` cross-reference record; `from` is accessed behind an
`if "from" in xref` guard, hence optional. -/
structure AxtXref where
  type : String
  from_ : Option Int
deriving DecidableEq

/-- One entry of an instruction's `xrefs_from` array (`pdfj` output). -/
structure LowXref where
  type : String
  addr : Int
deriving DecidableEq

/-- One instruction record of `pdfj`'s `ops` array, restricted to the keys
the source reads; `xrefs_from` is behind an `if "xrefs_from" in ins` guard. -/
structure Ins where
  offset : Int
  xrefs_from : Option (List LowXref)
  disasm : String
  bytes : String
deriving DecidableEq

/-- The query surface of one per-dex rizin session (`self._get_rz(index)`):
the responses to the three JSON commands the embedded functions issue. -/
structure RzSession where
  isj_at : Int → List IsjObj     -- cmdj "is.j @ addr"
  axtj : Int → List AxtXref      -- cmdj "axtj @ addr"
  pdfj : Int → List Ins          -- cmdj "pdfj @ addr" ["ops"]

/-- `_get_method_by_address(address)`: always resolves against the session
of dex index 0 (`dexindex = 0` is hard-coded in the source), parsing the
first record of `is.j @ address`. -/
def _get_method_by_address (sessions : Nat → RzSession) (address : Int) :
    Except String (Option MethodObject) :=
  let dexindex := 0
  match (sessions dexindex).isj_at address with
  | [] => .ok none
  | obj :: _ => _parse_method_from_isj_obj obj dexindex

/-- Loop body of `upperfunc`: keep `CALL` xrefs carrying a `from` address,
resolve each with `resolve` (in the source, `self._get_method_by_address`),
skip unresolved ones, and collect into a Python set. -/
def upperLoop (resolve : Int → Except String (Option MethodObject)) :
    List AxtXref → List MethodObject → Except String (List MethodObject)
  | [], acc => .ok acc
  | x :: t, acc =>
    if x.type = "CALL" then
      match x.from_ with
      | some a =>
        match resolve a with
        | .error e => .error e
        | .ok none => upperLoop resolve t acc      -- logged and skipped
        | .ok (some m) => upperLoop resolve t (setAdd acc m)
      | none => upperLoop resolve t acc            -- key "from" missing: logged
    else upperLoop resolve t acc

/-- `upperfunc(method_object)`: callers of the method.  The `axtj` query runs
against the method's own dex session; resolution goes through
`_get_method_by_address`. -/
def upperfunc (sessions : Nat → RzSession) (method_object : MethodObject) :
    Except String (List MethodObject) :=
  match method_object.cache with
  | none => .error "AttributeError: cache is None"
  | some cache =>
    upperLoop (_get_method_by_address sessions)
      ((sessions cache.dexindex).axtj cache.address) []

/-- Inner loop of `lowerfunc` over one instruction's `CALL` xrefs. -/
def lowerXrefLoop (resolve : Int → Except String (Option MethodObject))
    (insOffset cacheAddress : Int) :
    List LowXref → List (MethodObject × Int) → Except String (List (MethodObject × Int))
  | [], acc => .ok acc
  | x :: t, acc =>
    if x.type = "CALL" then
      match resolve x.addr with
      | .error e => .error e
      | .ok none => lowerXrefLoop resolve insOffset cacheAddress t acc  -- logged, skipped
      | .ok (some m) =>
        lowerXrefLoop resolve insOffset cacheAddress t
          (acc ++ [(m, insOffset - cacheAddress)])
    else lowerXrefLoop resolve insOffset cacheAddress t acc

/-- Outer loop of `lowerfunc` over the instruction flow. -/
def lowerLoop (resolve : Int → Except String (Option MethodObject)) (cacheAddress : Int) :
    List Ins → List (MethodObject × Int) → Except String (List (MethodObject × Int))
  | [], acc => .ok acc
  | ins :: t, acc =>
    match ins.xrefs_from with
    | none => lowerLoop resolve cacheAddress t acc
    | some xs =>
      match lowerXrefLoop resolve ins.offset cacheAddress xs acc with
      | .error e => .error e
      | .ok acc' => lowerLoop resolve cacheAddress t acc'

/-- `lowerfunc(method_object)`: list of `(callee, offset)` pairs, one per
resolved `CALL` xref, with `offset = ins["offset"] - cache.address`. -/
def lowerfunc (sessions : Nat → RzSession) (method_object : MethodObject) :
    Except String (List (MethodObject × Int)) :=
  match method_object.cache with
  | none => .error "AttributeError: cache is None"
  | some cache =>
    lowerLoop (_get_method_by_address sessions) cache.address
      ((sessions cache.dexindex).pdfj cache.address) []

/-! ## `find_method` -/

/-- Read access to one per-dex `defaultdict(list)` method table: a missing
class key yields the empty bucket. -/
def dictGet (t : List (String × List MethodObject)) (k : String) : List MethodObject :=
  match t.find? (fun p => p.1 == k) with
  | some p => p.2
  | none => []

/-- The inner `method_filter` of `find_method`: Python falsy (empty) name or
descriptor arguments match anything; otherwise exact string equality. -/
def method_filter (method_name descriptor : String) (method : MethodObject) : Bool :=
  (method_name == "" || method_name == method.name)
    && (descriptor == "" || descriptor == method.descriptor)

/-- `find_method(class_name, method_name, descriptor)` over the per-dex
tables: for each dex in order, look the class name up as a literal key and
return the first bucket entry passing `method_filter`; `none` models the
implicit `return None`. -/
def find_method (tables : List (List (String × List MethodObject)))
    (class_name method_name descriptor : String) : Option MethodObject :=
  match tables with
  | [] => none
  | t :: rest =>
    match (dictGet t class_name).filter (method_filter method_name descriptor) with
    | m :: _ => some m
    | [] => find_method rest class_name method_name descriptor

/-! ## `get_wrapper_smali` -/

/-- A value of the result dictionary of `get_wrapper_smali`: `None`, a
bytecode rendered as `[mnemonic] + registers + [parameter]`, or a hex
string. -/
inductive WrapperVal where
  | vnone : WrapperVal
  | vlist : List (Option String) → WrapperVal
  | vstr : String → WrapperVal
deriving DecidableEq

/-- Python dict lookup on the result dictionary. -/
def pyLookup : List (String × WrapperVal) → String → Option WrapperVal
  | [], _ => none
  | (k', v) :: t, k => if k' = k then some v else pyLookup t k

/-- Python dict assignment `d[k] = v`: replace the existing binding, or
append a new one. -/
def setAssoc : List (String × WrapperVal) → String → WrapperVal → List (String × WrapperVal)
  | [], k, v => [(k, v)]
  | (k', v') :: t, k, v => if k' = k then (k, v) :: t else (k', v') :: setAssoc t k v

/-- `convert_bytecode_to_list(bytecode)`:
`[bytecode.mnemonic] + bytecode.registers + [bytecode.parameter]`; a `None`
register list would raise a `TypeError` in Python. -/
def convert_bytecode_to_list (bytecode : BytecodeObject) :
    Except String (List (Option String)) :=
  match bytecode.registers with
  | none => .error "TypeError: registers is None"
  | some regs => .ok (some bytecode.mnemonic :: (regs.map some ++ [bytecode.parameter]))

/-- `" ".join(re.finditer(r"\w{2}", bytes))`: non-overlapping pairs of word
characters, joined with single spaces. -/
def isWordChar (c : Char) : Bool := c.isAlphanum || c == '_'

def hexPairsGo : List Char → List (List Char)
  | a :: b :: t => if isWordChar a && isWordChar b then [a, b] :: hexPairsGo t
                   else hexPairsGo (b :: t)
  | _ => []

def hexSpaced (bytes : String) : String :=
  joinSep " " ((hexPairsGo bytes.data).map String.mk)

/-- Evidence recorded for one matching invocation: the truncated instruction
text parsed by `_parse_smali` and flattened by `convert_bytecode_to_list`,
plus the byte string rendered by `hexSpaced`. -/
def evidencePair (istr bytes : String) : Except String (WrapperVal × WrapperVal) :=
  match _parse_smali istr with
  | .error e => .error e
  | .ok bc =>
    match convert_bytecode_to_list bc with
    | .error e => .error e
    | .ok l => .ok (WrapperVal.vlist l, WrapperVal.vstr (hexSpaced bytes))

/-- The scan loop of `get_wrapper_smali`.  `stale` is the current value of
the Python local `instrcution_string`, which is only (re)assigned when the
instruction text contains a `;`; reading it before any assignment is a
`NameError`. -/
def wrapperLoop (fp sp : String) :
    List Ins → List (String × WrapperVal) → Option String →
    Except String (List (String × WrapperVal))
  | [], result, _ => .ok result
  | ins :: rest, result, stale =>
    if pyStartswith ins.disasm "invoke" = true then
      let istr? : Option String :=
        if pyIn ";" ins.disasm = true then
          match rfindSub ";".data ins.disasm.data with
          | some idx => some (strTake ins.disasm idx)
          | none => stale  -- unreachable: ";" occurs in the text
        else stale
      match istr? with
      | none => .error "NameError: instrcution_string referenced before assignment"
      | some istr =>
        let step1 : Except String (List (String × WrapperVal)) :=
          if pyIn fp istr = true then
            match evidencePair istr ins.bytes with
            | .error e => .error e
            | .ok (v1, v2) => .ok (setAssoc (setAssoc result "first" v1) "first_hex" v2)
          else .ok result
        match step1 with
        | .error e => .error e
        | .ok r1 =>
          let step2 : Except String (List (String × WrapperVal)) :=
            if pyIn sp istr = true then
              match evidencePair istr ins.bytes with
              | .error e => .error e
              | .ok (v1, v2) => .ok (setAssoc (setAssoc r1 "second" v1) "second_hex" v2)
            else .ok r1
          match step2 with
          | .error e => .error e
          | .ok r2 => wrapperLoop fp sp rest r2 (some istr)
    else wrapperLoop fp sp rest result stale

/-- The search pattern `"{class_name}.{name}{descriptor}"` built from a
method, with the class name's final character removed (`class_name[:-1]`). -/
def rzSearchPattern (m : MethodObject) : String :=
  strDropRight m.class_name 1 ++ "." ++ m.name ++ m.descriptor

/-- `get_wrapper_smali(parent_method, first_method, second_method)`.  The
returned `Bool` records whether the disassembly query (`pdfj`) was issued:
for an imported parent the source returns `{}` before opening the session. -/
def get_wrapper_smali (sessions : Nat → RzSession)
    (parent_method first_method second_method : MethodObject) :
    Except String (List (String × WrapperVal) × Bool) :=
  match parent_method.cache with
  | none => .error "AttributeError: cache is None"
  | some cache =>
    let result : List (String × WrapperVal) :=
      [("first", WrapperVal.vnone), ("first_hex", WrapperVal.vnone),
       ("second", WrapperVal.vnone), ("second_hex", WrapperVal.vnone)]
    let first_method_pattern := rzSearchPattern first_method
    let second_method_pattern := rzSearchPattern second_method
    if cache.is_imported = true then .ok ([], false)
    else
      let instruction_flow := (sessions cache.dexindex).pdfj cache.address
      match wrapperLoop first_method_pattern second_method_pattern instruction_flow
          result none with
      | .error e => .error e
      | .ok r => .ok (r, true)

/-! ## Definitions following the spec's words (for comparison with the code) -/

/-- Modelled from the spec: the fully-qualified signature text in the form
`class->name(descriptor)` that claim C2 says the extractor matches on. -/
def specSignatureText (m : MethodObject) : String :=
  m.class_name ++ "->" ++ m.name ++ m.descriptor

/-- Modelled from the spec: the descriptor text contains a balanced
parenthesis pair, i.e. a `(` with a `)` somewhere after it (claim C6). -/
def hasBalancedPair (d : String) : Bool :=
  (((d.data.dropWhile (fun c => c ≠ '(')).drop 1).contains ')')

/-- Does an instruction's text start with `invoke`? -/
def invokeIns (ins : Ins) : Bool := pyStartswith ins.disasm "invoke"

/-- The instruction text truncated at its last `;`
(`ins["disasm"][: ins["disasm"].rindex(";")]`). -/
def truncAtLastSemi (s : String) : String :=
  match rfindSub ";".data s.data with
  | some i => strTake s i
  | none => s

/-- A `CALL` xref whose target address resolves to a method. -/
def resolvedB (resolve : Int → Except String (Option MethodObject)) (x : LowXref) : Bool :=
  decide (x.type = "CALL") &&
    (match resolve x.addr with
     | .ok (some _) => true
     | _ => false)

/-- Modelled from the spec: the number of resolved call sites of an
instruction flow, i.e. of `CALL` xrefs whose target address resolves to a
method (claim C5's "one pair per resolved call site"). -/
def resolvedCallSiteCount (resolve : Int → Except String (Option MethodObject))
    (ops : List Ins) : Nat :=
  (ops.map (fun ins =>
    match ins.xrefs_from with
    | none => 0
    | some xs => (xs.filter (resolvedB resolve)).length)).sum

/-! Concrete scenario for exercising `lowerfunc`: one symbol record that
demangles successfully, two instructions with call xrefs to its address. -/

def c5obj : IsjObj := ⟨some "METH", "int Lcom.foo.method(int)", "method", false, "sym.foo_method", 100⟩

def c5m : MethodObject := ⟨"Ljava/lang/foo;", "method", "(I)I", none, some ⟨100, 0, false⟩⟩

def c5sess : Nat → RzSession :=
  fun _ => ⟨fun _ => [c5obj], fun _ => [],
            fun _ => [⟨12, some [⟨"CALL", 100⟩], "", ""⟩,
                      ⟨14, some [⟨"CALL", 100⟩, ⟨"DATA", 4⟩], "", ""⟩]⟩

def c5parent : MethodObject := ⟨"Lp;", "p", "()V", none, some ⟨10, 0, false⟩⟩

/-! Concrete scenarios for exercising `get_wrapper_smali`. -/

def c2ins : Ins := ⟨12, none, "invoke-virtual {v1}, Lfoo.bar(Ljava/lang/String;)V ; 0xc", "6e20"⟩

def c2sess : Nat → RzSession := fun _ => ⟨fun _ => [], fun _ => [], fun _ => [c2ins]⟩

def c2parent : MethodObject := ⟨"Lp;", "p", "()V", none, some ⟨10, 0, false⟩⟩

def c2first : MethodObject := ⟨"Lfoo;", "bar", "(Ljava/lang/String;)V", none, none⟩

def c2second : MethodObject := ⟨"Lbaz;", "qux", "()V", none, none⟩

def c2wins : Ins := ⟨16, none, "invoke-static {v2}, Lqq.mm()V ; 0x8", "7100"⟩

def c2wsess : Nat → RzSession := fun _ => ⟨fun _ => [], fun _ => [], fun _ => [c2wins]⟩

def c2wfirst : MethodObject := ⟨"Lqq;", "mm", "()V", none, none⟩

/-- Strip trailing `[]` pairs from a raw type name.  A raw type whose residue
is the single character `]` is exactly the degenerate case in which the
claim C4 equation for a leading `[` fails; any genuine type name has a
different residue. -/
def arrResidueRev : List Char → List Char
  | x :: y :: t => if x = ']' ∧ y = '[' then arrResidueRev t else x :: y :: t
  | l => l

def arrResidue (s : String) : String := String.mk ((arrResidueRev s.data.reverse).reverse)

/-! ## Helper lemmas -/

theorem isPre_length {p l : List Char} (h : isPre p l = true) : p.length ≤ l.length := by
  induction p generalizing l with
  | nil => simp
  | cons a t ih =>
    cases l with
    | nil => simp [isPre] at h
    | cons b u =>
      simp only [isPre, Bool.and_eq_true] at h
      simpa using ih h.2

theorem isSuf_length {p l : List Char} (h : isSuf p l = true) : p.length ≤ l.length := by
  have := @isPre_length p.reverse l.reverse h
  simpa using this

theorem findSub_le {sub l : List Char} {i : Nat} (h : findSub sub l = some i) :
    i + sub.length ≤ l.length := by
  induction l generalizing i with
  | nil =>
    simp only [findSub] at h
    split at h
    · rename_i hp
      cases h
      simpa using isPre_length hp
    · cases h
  | cons a t ih =>
    simp only [findSub] at h
    split at h
    · rename_i hp
      cases h
      simpa using isPre_length hp
    · match hm : findSub sub t with
      | some j =>
        rw [hm] at h
        simp only [Option.map_some'] at h
        cases h
        have := ih hm
        simpa [Nat.add_right_comm] using Nat.add_le_add_right this 1
      | none => rw [hm] at h; cases h

theorem data_mk (l : List Char) : (String.mk l).data = l := rfl

/-- Python `s.strip()`: strip ASCII whitespace from both ends. -/

theorem strDropRight_length (s : String) (n : Nat) :
    (strDropRight s n).data.length = s.data.length - n := by
  simp [strDropRight]

theorem data_append (s t : String) : (s ++ t).data = s.data ++ t.data := rfl

theorem string_eta (s : String) : String.mk s.data = s := rfl

theorem string_ext {s t : String} (h : s.data = t.data) : s = t := by
  have := congrArg String.mk h
  simpa [string_eta] using this

/-! ## Claim C3: MethodObject identity -/

theorem methodEq_iff (a b : MethodObject) :
    methodEq a b = true ↔ methodHashKey a = methodHashKey b := by
  simp [methodEq, methodHashKey, Prod.ext_iff]

/-- Claim C3: for every pair of MethodSignature values, equality and hashing
are determined by exactly the triple (class, name, descriptor): two values
with identical triples compare equal and hash equal regardless of access
flags, backend handle or producing sub-image, and they collapse to one
element in any set. -/
theorem c3_method_identity :
    (∀ a b : MethodObject, methodEq a b = true ↔ methodHashKey a = methodHashKey b)
    ∧ (∀ c n d f₁ h₁ f₂ h₂,
        methodEq ⟨c, n, d, f₁, h₁⟩ ⟨c, n, d, f₂, h₂⟩ = true
          ∧ methodHashKey ⟨c, n, d, f₁, h₁⟩ = methodHashKey ⟨c, n, d, f₂, h₂⟩)
    ∧ (∀ (pyhash : String × String × String → Nat) (a b : MethodObject),
        methodEq a b = true → pyhash (methodHashKey a) = pyhash (methodHashKey b))
    ∧ (∀ (l : List MethodObject) (a b : MethodObject),
        methodEq a b = true → setAdd (setAdd l a) b = setAdd l a) := by
  refine ⟨methodEq_iff, ?_, ?_, ?_⟩
  · intro c n d f₁ h₁ f₂ h₂
    exact ⟨by simp [methodEq], by simp [methodHashKey]⟩
  · intro pyhash a b h
    exact congrArg pyhash ((methodEq_iff a b).mp h)
  · intro l a b hab
    by_cases hmem : l.any (fun x => methodEq x a) = true
    · have hl : setAdd l a = l := by simp [setAdd, hmem]
      rw [hl]
      obtain ⟨x, hx, hxa⟩ := List.any_eq_true.mp hmem
      have hxb : methodEq x b = true := by
        rw [methodEq_iff] at hxa hab ⊢
        exact hxa.trans hab
      have : l.any (fun x => methodEq x b) = true := List.any_eq_true.mpr ⟨x, hx, hxb⟩
      simp [setAdd, this]
    · have hl : setAdd l a = l ++ [a] := by simp [setAdd] at hmem ⊢; simpa using hmem
      rw [hl]
      have : (l ++ [a]).any (fun x => methodEq x b) = true :=
        List.any_eq_true.mpr ⟨a, by simp, hab⟩
      simp [setAdd, this]

/-- Witness for C3 at a concrete pair differing only in flags and handle. -/
theorem c3_method_identity_witness :
    methodHashKey ⟨"Lfoo;", "bar", "()V", some ["public"], some ⟨1, 0, true⟩⟩
      = methodHashKey ⟨"Lfoo;", "bar", "()V", none, some ⟨2, 3, false⟩⟩
    ∧ setAdd (setAdd [] ⟨"Lfoo;", "bar", "()V", some ["public"], some ⟨1, 0, true⟩⟩)
        ⟨"Lfoo;", "bar", "()V", none, some ⟨2, 3, false⟩⟩
      = setAdd [] ⟨"Lfoo;", "bar", "()V", some ["public"], some ⟨1, 0, true⟩⟩ :=
  ⟨(c3_method_identity.1 _ _).mp (by decide),
   c3_method_identity.2.2.2 [] _ _ (by decide)⟩

/-! ## Claim C1: ranged register expressions in `_parse_smali` -/

/-- Claim C1, counterexample: an operand list with the `:` range marker is
parsed into just the two bounding registers, not the inclusive expansion the
claim asserts for `:`. -/
theorem c1_ranged_register_counterexample :
    _parse_smali "invoke-virtual/range {v0:v5}, Lfoo;->bar()V"
      = .ok ⟨"invoke-virtual/range", some ["v0", "v5"], some "Lfoo;->bar()V"⟩
    ∧ (["v0", "v5"] ≠ ["v0", "v1", "v2", "v3", "v4", "v5"]) := by
  decide

/-- Claim C1, amended: the range treatment applies only when exactly one
operand token remains after parameter stripping; a `..` marker expands the
two bounding indices into the explicit inclusive register list (so
`v0..v5` yields exactly `["v0",...,"v5"]`), while a `:` marker keeps just
the parsed bounding registers without expansion; with several remaining
tokens a range marker is instead a register parse error. -/
theorem c1_ranged_register_amended :
    _parse_smali "invoke-virtual/range {v0..v5}, Lfoo;->bar()V"
      = .ok ⟨"invoke-virtual/range", some ["v0", "v1", "v2", "v3", "v4", "v5"],
             some "Lfoo;->bar()V"⟩
    ∧ _parse_smali "invoke-virtual/range {v0:v5}, Lfoo;->bar()V"
      = .ok ⟨"invoke-virtual/range", some ["v0", "v5"], some "Lfoo;->bar()V"⟩
    ∧ _parse_smali "invoke-a {v0..v2, v4}, Lfoo;->b()V"
      = .error "Cannot parse bytecode. Unknown smali invoke-a {v0..v2, v4}, Lfoo;->b()V." := by
  refine ⟨by decide, by decide, by decide⟩

/-! ## Claim C6: `descriptor_to_androguard_format` error condition -/

theorem pyIn_char_iff (c : Char) (d : String) :
    pyIn (String.mk [c]) d = true ↔ c ∈ d.data := by
  unfold pyIn
  rw [data_mk]
  induction d.data with
  | nil => simp [findSub, isPre]
  | cons a t ih =>
    by_cases hca : c = a
    · subst hca
      simp [findSub, isPre]
    · have : isPre [c] (a :: t) = false := by
        simp [isPre]
        exact fun h => absurd h hca
      simp [findSub, this, Option.isSome_map, hca, ih]

theorem balanced_mem {d : List Char}
    (h : (((d.dropWhile (fun c => c ≠ '(')).drop 1).contains ')') = true) :
    '(' ∈ d ∧ ')' ∈ d := by
  induction d with
  | nil => exact absurd h (by decide)
  | cons a t ih =>
    by_cases ha : a = '('
    · subst ha
      have hd : (('(' :: t).dropWhile (fun c => c ≠ '(')) = '(' :: t := by
        simp [List.dropWhile]
      rw [hd, List.drop_succ_cons, List.drop_zero] at h
      have h2 : ')' ∈ t := by simpa using h
      exact ⟨by simp, by simp [h2]⟩
    · have : (a :: t).dropWhile (fun c => c ≠ '(') = t.dropWhile (fun c => c ≠ '(') := by
        simp [List.dropWhile, ha]
      rw [this] at h
      obtain ⟨h1, h2⟩ := ih h
      exact ⟨by simp [h1], by simp [h2]⟩

/-- Claim C6, counterexample: the descriptor `")("` lacks a balanced
`(` ... `)` pair, yet the conversion succeeds instead of raising. -/
theorem c6_descriptor_error_counterexample :
    descriptor_to_androguard_format ")(" = .ok "()("
    ∧ hasBalancedPair ")(" = false := by
  decide

/-- Claim C6, amended: the conversion raises exactly when the descriptor
text lacks a `(` character or lacks a `)` character; in particular every
descriptor containing a balanced `(` ... `)` pair is converted without
error (and the function is pure, so no other state is affected). -/
theorem c6_descriptor_error_amended (d : String) :
    ((∃ e, descriptor_to_androguard_format d = .error e) ↔
      (pyIn "(" d = false ∨ pyIn ")" d = false))
    ∧ (hasBalancedPair d = true → ∃ r, descriptor_to_androguard_format d = .ok r) := by
  constructor
  · constructor
    · intro ⟨e, he⟩
      by_contra hcon
      push_neg at hcon
      obtain ⟨h1, h2⟩ := hcon
      have h1' : pyIn "(" d = true := by simpa using h1
      have h2' : pyIn ")" d = true := by simpa using h2
      unfold descriptor_to_androguard_format at he
      rw [if_neg (by simp [h1', h2'])] at he
      have : (findSub ")".data d.data).isSome = true := h2'
      match hf : findSub ")".data d.data with
      | some i => rw [hf] at he; cases he
      | none => rw [hf] at this; cases this
    · intro h
      refine ⟨"Invalid descriptor. " ++ d, ?_⟩
      unfold descriptor_to_androguard_format
      rw [if_pos]
      rcases h with h | h <;> simp [h]
  · intro hb
    have hmem : '(' ∈ d.data ∧ ')' ∈ d.data := balanced_mem (by simpa [hasBalancedPair] using hb)
    have h1 : pyIn "(" d = true := (pyIn_char_iff '(' d).mpr hmem.1
    have h2 : pyIn ")" d = true := (pyIn_char_iff ')' d).mpr hmem.2
    unfold descriptor_to_androguard_format
    rw [if_neg (by simp [h1, h2])]
    have : (findSub ")".data d.data).isSome = true := h2
    match hf : findSub ")".data d.data with
    | some i => exact ⟨_, rfl⟩
    | none => rw [hf] at this; cases this

/-- Witness for the C6 amended claim at `"(I)V"`. -/
theorem c6_descriptor_error_witness :
    ∃ r, descriptor_to_androguard_format "(I)V" = .ok r :=
  (c6_descriptor_error_amended "(I)V").2 (by decide)

/-! ## Claim C8: `find_method` matching semantics -/

/-- Claim C8, counterexample: `find_method` with an empty (falsy) class-name
argument looks up the literal empty key and finds nothing, even though a
method matching the name and descriptor filters exists — so a falsy argument
does not match anything in the class position. -/
theorem c8_find_method_counterexample :
    find_method [[("Lfoo;", [⟨"Lfoo;", "bar", "()V", none, none⟩])]] "" "bar" "()V" = none
    ∧ method_filter "bar" "()V" ⟨"Lfoo;", "bar", "()V", none, none⟩ = true
    ∧ find_method [[("Lfoo;", [⟨"Lfoo;", "bar", "()V", none, none⟩])]] "Lfoo;" "" ""
        = some ⟨"Lfoo;", "bar", "()V", none, none⟩ := by
  refine ⟨by decide, by decide, by decide⟩

/-- Claim C8, amended: `find_method` matches the method-name and descriptor
arguments by exact string equality (an empty argument matches anything) and
the class-name argument by exact key lookup in the per-sub-image table (an
empty class argument selects only the empty-named class bucket); there is no
regular-expression interpretation, so the default `".*"` arguments return
null whenever the `".*"` class bucket holds no method literally named
`".*"`. -/
theorem c8_find_method_amended :
    (∀ tables c n d m, find_method tables c n d = some m →
      ∃ t ∈ tables, m ∈ dictGet t c ∧ method_filter n d m = true
        ∧ (n = "" ∨ n = m.name) ∧ (d = "" ∨ d = m.descriptor))
    ∧ (∀ tables, (∀ t ∈ tables, ∀ m ∈ dictGet t ".*", m.name ≠ ".*") →
        find_method tables ".*" ".*" ".*" = none)
    ∧ (∀ t c, find_method [t] c "" "" = (dictGet t c).head?) := by
  refine ⟨?_, ?_, ?_⟩
  · intro tables
    induction tables with
    | nil => intro c n d m h; cases h
    | cons t rest ih =>
      intro c n d m h
      unfold find_method at h
      match hf : (dictGet t c).filter (method_filter n d) with
      | m' :: tl =>
        rw [hf] at h
        cases h
        have hmem : m ∈ (dictGet t c).filter (method_filter n d) := by
          rw [hf]; exact List.mem_cons_self _ _
        obtain ⟨hin, hp⟩ := List.mem_filter.mp hmem
        have hsplit : (n = "" ∨ n = m.name) ∧ (d = "" ∨ d = m.descriptor) := by
          simpa [method_filter] using hp
        exact ⟨t, List.mem_cons_self _ _, hin, hp, hsplit.1, hsplit.2⟩
      | [] =>
        rw [hf] at h
        obtain ⟨t', ht', rest'⟩ := ih c n d m h
        exact ⟨t', List.mem_cons_of_mem _ ht', rest'⟩
  · intro tables
    induction tables with
    | nil => intro _; rfl
    | cons t rest ih =>
      intro hnone
      unfold find_method
      have hf : (dictGet t ".*").filter (method_filter ".*" ".*") = [] := by
        rw [List.filter_eq_nil_iff]
        intro m hm
        have hname := hnone t (List.mem_cons_self _ _) m hm
        simp [method_filter]
        exact fun h => absurd h.symm hname
      rw [hf]
      exact ih (fun t' ht' => hnone t' (List.mem_cons_of_mem _ ht'))
  · intro t c
    have hf : (dictGet t c).filter (method_filter "" "") = dictGet t c :=
      List.filter_eq_self.mpr (fun m _ => by simp [method_filter])
    unfold find_method
    rw [hf]
    cases dictGet t c <;> rfl

/-- Witness for the C8 amended claim at concrete tables. -/
theorem c8_find_method_witness :
    (∃ t ∈ [[("Lfoo;", [(⟨"Lfoo;", "bar", "()V", none, none⟩ : MethodObject)])]],
       (⟨"Lfoo;", "bar", "()V", none, none⟩ : MethodObject) ∈ dictGet t "Lfoo;"
       ∧ method_filter "bar" "()V" ⟨"Lfoo;", "bar", "()V", none, none⟩ = true
       ∧ ("bar" = "" ∨ ("bar" : String) = "bar") ∧ ("()V" = "" ∨ ("()V" : String) = "()V"))
    ∧ find_method [[(".*", [(⟨".*", "x", "()V", none, none⟩ : MethodObject)])]]
        ".*" ".*" ".*" = none :=
  ⟨c8_find_method_amended.1 _ "Lfoo;" "bar" "()V" _ (by decide),
   c8_find_method_amended.2.1 _ (by decide)⟩

/-! ## Claim C9: imported parents in `get_wrapper_smali` -/

/-- Claim C9: for every parent whose backend handle is marked imported, the
wrapper-evidence extractor returns the completely empty dictionary without
issuing the disassembly query (the `Bool` component records whether `pdfj`
was issued); a non-imported parent instead gets the four-field record, with
all four values empty when the instruction flow is empty. -/
theorem c9_imported_wrapper :
    (∀ (sessions : Nat → RzSession) (parent first second : MethodObject)
       (cache : RizinCache),
       parent.cache = some cache → cache.is_imported = true →
       get_wrapper_smali sessions parent first second = .ok ([], false))
    ∧ (∀ (sessions : Nat → RzSession) (parent first second : MethodObject)
       (cache : RizinCache),
       parent.cache = some cache → cache.is_imported = false →
       (sessions cache.dexindex).pdfj cache.address = [] →
       get_wrapper_smali sessions parent first second =
         .ok ([("first", WrapperVal.vnone), ("first_hex", WrapperVal.vnone),
               ("second", WrapperVal.vnone), ("second_hex", WrapperVal.vnone)], true)) := by
  constructor
  · intro sessions parent first second cache hc him
    simp [get_wrapper_smali, hc, him]
  · intro sessions parent first second cache hc him hflow
    simp [get_wrapper_smali, hc, him, hflow, wrapperLoop]

/-- Witness for C9 at a concrete imported and a concrete non-imported
parent. -/
theorem c9_imported_wrapper_witness :
    get_wrapper_smali (fun _ => ⟨fun _ => [], fun _ => [], fun _ => []⟩)
      ⟨"Lp;", "p", "()V", none, some ⟨7, 2, true⟩⟩
      ⟨"La;", "a", "()V", none, none⟩ ⟨"Lb;", "b", "()V", none, none⟩
      = .ok ([], false)
    ∧ get_wrapper_smali (fun _ => ⟨fun _ => [], fun _ => [], fun _ => []⟩)
      ⟨"Lp;", "p", "()V", none, some ⟨7, 2, false⟩⟩
      ⟨"La;", "a", "()V", none, none⟩ ⟨"Lb;", "b", "()V", none, none⟩
      = .ok ([("first", WrapperVal.vnone), ("first_hex", WrapperVal.vnone),
              ("second", WrapperVal.vnone), ("second_hex", WrapperVal.vnone)], true) :=
  ⟨c9_imported_wrapper.1 _ _ _ _ ⟨7, 2, true⟩ rfl rfl,
   c9_imported_wrapper.2 _ _ _ _ ⟨7, 2, false⟩ rfl rfl rfl⟩

/-! ## Claim C10: address resolution is pinned to sub-image 0 -/

/-- Claim C10: `_get_method_by_address` always issues its symbol-at-address
query against the session of sub-image index 0, so the results of
`_get_method_by_address`, `upperfunc` and `lowerfunc` are unchanged by any
modification of the symbol tables of the other sub-images: they depend on
the symbol tables only through index 0, whatever the method's own sub-image
index is. -/
theorem c10_dex0_resolution :
    ∀ (sessions sessions' : Nat → RzSession),
      (sessions 0).isj_at = (sessions' 0).isj_at →
      (∀ i, (sessions i).axtj = (sessions' i).axtj) →
      (∀ i, (sessions i).pdfj = (sessions' i).pdfj) →
      (∀ addr, _get_method_by_address sessions addr = _get_method_by_address sessions' addr)
      ∧ (∀ m, upperfunc sessions m = upperfunc sessions' m)
      ∧ (∀ m, lowerfunc sessions m = lowerfunc sessions' m) := by
  intro sessions sessions' h0 hax hpdf
  have hres : _get_method_by_address sessions = _get_method_by_address sessions' := by
    funext addr
    simp only [_get_method_by_address, h0]
  refine ⟨fun addr => congrFun hres addr, ?_, ?_⟩
  · intro m
    cases hm : m.cache with
    | none => simp [upperfunc, hm]
    | some cache => simp only [upperfunc, hm, hres, hax cache.dexindex]
  · intro m
    cases hm : m.cache with
    | none => simp [lowerfunc, hm]
    | some cache => simp only [lowerfunc, hm, hres, hpdf cache.dexindex]

/-! ## Claim C4: array and variadic rules of the type converter -/

theorem brackets_data : ("[]" : String).data = ['[', ']'] := rfl

theorem dots_data : ("..." : String).data = ['.', '.', '.'] := rfl

theorem strDrop_length (s : String) (n : Nat) :
    (strDrop s n).data.length = s.data.length - n := by
  simp [strDrop]

theorem strTake_length (s : String) (n : Nat) :
    (strTake s n).data.length = min n s.data.length := by
  simp [strTake]

theorem convertF_congr :
    ∀ (f1 f2 : Nat) (s : String), s.data.length < f1 → s.data.length < f2 →
      convertF f1 s = convertF f2 s := by
  intro f1
  induction f1 with
  | zero => intro f2 s h1 h2; exact absurd h1 (Nat.not_lt_zero _)
  | succ f1 ih =>
    intro f2 s h1 h2
    cases f2 with
    | zero => exact absurd h2 (Nat.not_lt_zero _)
    | succ f2 =>
      simp only [convertF]
      by_cases h0 : s.data = []
      · rw [if_pos h0, if_pos h0]
      · rw [if_neg h0, if_neg h0]
        have hlen : 0 < s.data.length := List.length_pos.mpr h0
        by_cases hE : pyEndswith s "[]" = true
        · rw [if_pos hE, if_pos hE]
          have h2le : 2 ≤ s.data.length := by
            have := @isSuf_length ("[]" : String).data s.data hE
            simpa [brackets_data] using this
          exact congrArg (fun x => "[" ++ x)
            (ih f2 (strDropRight s 2) (by rw [strDropRight_length]; omega)
              (by rw [strDropRight_length]; omega))
        · rw [if_neg hE, if_neg hE]
          by_cases hS : pyStartswith s "[" = true
          · rw [if_pos hS, if_pos hS]
            exact congrArg (fun x => "[" ++ x)
              (ih f2 (strDrop s 1) (by rw [strDrop_length]; omega)
                (by rw [strDrop_length]; omega))
          · rw [if_neg hS, if_neg hS]
            cases hF : findSub "...".data s.data with
            | some i =>
              have hle := findSub_le hF
              simp only [dots_data, List.length_cons, List.length_nil] at hle
              exact congrArg (fun x => "[" ++ x)
                (ih f2 (strTake s i) (by rw [strTake_length]; omega)
                  (by rw [strTake_length]; omega))
            | none => rfl

theorem convert_unfold (s : String) :
    _convert_type_to_type_signature s =
      if s.data = [] then s
      else if pyEndswith s "[]" = true then
        "[" ++ _convert_type_to_type_signature (strDropRight s 2)
      else if pyStartswith s "[" = true then
        "[" ++ _convert_type_to_type_signature (strDrop s 1)
      else
        match findSub "...".data s.data with
        | some i => "[" ++ _convert_type_to_type_signature (strTake s i)
        | none =>
          match primitiveMap s with
          | some p => p
          | none =>
            if pyIn "." s = true ∨ pyIn "_" s = true then
              "L" ++ String.mk (s.data.map
                (fun c => if c = '.' then '/' else if c = '_' then '$' else c)) ++ ";"
            else "Ljava/lang/" ++ s ++ ";" := by
  conv_lhs => rw [_convert_type_to_type_signature]
  simp only [convertF]
  by_cases h0 : s.data = []
  · rw [if_pos h0, if_pos h0]
  · rw [if_neg h0, if_neg h0]
    have hlen : 0 < s.data.length := List.length_pos.mpr h0
    by_cases hE : pyEndswith s "[]" = true
    · rw [if_pos hE, if_pos hE]
      have h2le : 2 ≤ s.data.length := by
        have := @isSuf_length ("[]" : String).data s.data hE
        simpa [brackets_data] using this
      rw [_convert_type_to_type_signature]
      exact congrArg (fun x => "[" ++ x)
        (convertF_congr _ _ (strDropRight s 2) (by rw [strDropRight_length]; omega)
          (by rw [strDropRight_length]; omega))
    · rw [if_neg hE, if_neg hE]
      by_cases hS : pyStartswith s "[" = true
      · rw [if_pos hS, if_pos hS]
        rw [_convert_type_to_type_signature]
        exact congrArg (fun x => "[" ++ x)
          (convertF_congr _ _ (strDrop s 1) (by rw [strDrop_length]; omega)
            (by rw [strDrop_length]; omega))
      · rw [if_neg hS, if_neg hS]
        cases hF : findSub "...".data s.data with
        | some i =>
          have hle := findSub_le hF
          simp only [dots_data, List.length_cons, List.length_nil] at hle
          exact congrArg (fun x => "[" ++ x)
            (convertF_congr _ _ (strTake s i) (by rw [strTake_length]; omega)
              (by rw [strTake_length]; omega))
        | none => rfl

theorem pyEndswith_append_brackets (T : String) : pyEndswith (T ++ "[]") "[]" = true := by
  simp [pyEndswith, isSuf, data_append, brackets_data, List.reverse_append, isPre]

theorem strDropRight_append_brackets (T : String) : strDropRight (T ++ "[]") 2 = T := by
  apply string_ext
  simp only [strDropRight, data_mk, data_append, brackets_data, List.length_append]
  simp

theorem convert_trailing (T : String) :
    _convert_type_to_type_signature (T ++ "[]")
      = "[" ++ _convert_type_to_type_signature T := by
  rw [convert_unfold (T ++ "[]")]
  rw [if_neg (by simp [data_append, brackets_data])]
  rw [if_pos (pyEndswith_append_brackets T)]
  rw [strDropRight_append_brackets T]

theorem isPre_decomp {p l : List Char} (h : isPre p l = true) : ∃ u, l = p ++ u := by
  induction p generalizing l with
  | nil => exact ⟨l, rfl⟩
  | cons a t ih =>
    cases l with
    | nil => simp [isPre] at h
    | cons b u =>
      simp only [isPre, Bool.and_eq_true, beq_iff_eq] at h
      obtain ⟨rfl, h2⟩ := h
      obtain ⟨v, rfl⟩ := ih h2
      exact ⟨v, rfl⟩

theorem endswith_brackets_decomp {T : String} (h : pyEndswith T "[]" = true) :
    ∃ T', T = T' ++ "[]" := by
  have h' : isPre [']', '['] T.data.reverse = true := by
    simpa [pyEndswith, isSuf, brackets_data] using h
  obtain ⟨u, hu⟩ := isPre_decomp h'
  refine ⟨String.mk u.reverse, string_ext ?_⟩
  have := congrArg List.reverse hu
  simpa [data_append, brackets_data] using this

theorem arrResidue_append (T' : String) : arrResidue (T' ++ "[]") = arrResidue T' := by
  unfold arrResidue
  have : (T' ++ "[]").data.reverse = ']' :: '[' :: T'.data.reverse := by
    simp [data_append, brackets_data]
  rw [this]
  simp [arrResidueRev]

theorem arrResidue_eq_self {T : String} (h : pyEndswith T "[]" = false) :
    arrResidue T = T := by
  unfold arrResidue
  have h' : isPre [']', '['] T.data.reverse = false := by
    simpa [pyEndswith, isSuf, brackets_data] using h
  have : arrResidueRev T.data.reverse = T.data.reverse := by
    cases hr : T.data.reverse with
    | nil => simp [arrResidueRev]
    | cons x u =>
      cases u with
      | nil => simp [arrResidueRev]
      | cons y t =>
        rw [hr] at h'
        simp only [isPre, Bool.and_eq_true, beq_iff_eq] at h'
        rw [arrResidueRev]
        rw [if_neg]
        intro ⟨hx, hy⟩
        subst hx; subst hy
        simp [isPre] at h'
  rw [this]
  apply string_ext
  simp

theorem endswith_bracket_cons {T : String} (h : pyEndswith ("[" ++ T) "[]" = true) :
    T = "]" ∨ pyEndswith T "[]" = true := by
  have h' : isPre [']', '['] (T.data.reverse ++ ['[']) = true := by
    simpa [pyEndswith, isSuf, brackets_data, data_append, List.reverse_append] using h
  cases hr : T.data.reverse with
  | nil =>
    rw [hr] at h'
    simp [isPre] at h'
  | cons x u =>
    cases u with
    | nil =>
      rw [hr] at h'
      simp [isPre] at h'
      left
      apply string_ext
      have hT : T.data = [x] := by
        have := congrArg List.reverse hr
        simpa using this
      rw [hT, ← h']
    | cons y t =>
      rw [hr] at h'
      simp [isPre] at h'
      obtain ⟨h1, h2⟩ := h'
      right
      have hpre : isPre [']', '['] T.data.reverse = true := by
        rw [hr]
        simp [isPre, ← h1, ← h2]
      simpa [pyEndswith, isSuf, brackets_data] using hpre

theorem convert_leading_aux :
    ∀ (n : Nat) (T : String), T.data.length ≤ n → arrResidue T ≠ "]" →
      _convert_type_to_type_signature ("[" ++ T)
        = "[" ++ _convert_type_to_type_signature T := by
  intro n
  induction n with
  | zero =>
    intro T hlen _
    have hT : T = "" := string_ext (by simpa using List.length_eq_zero.mp (Nat.le_zero.mp hlen))
    subst hT
    decide
  | succ n ih =>
    intro T hlen hres
    by_cases hE : pyEndswith T "[]" = true
    · obtain ⟨T', rfl⟩ := endswith_brackets_decomp hE
      have hassoc : "[" ++ (T' ++ "[]") = ("[" ++ T') ++ "[]" := by
        apply string_ext
        simp [data_append]
      rw [hassoc, convert_trailing ("[" ++ T'), convert_trailing T']
      have hlen2 : (T' ++ "[]").data.length = T'.data.length + 2 := by
        rw [data_append, List.length_append]
        rfl
      have hlen' : T'.data.length ≤ n := by
        rw [hlen2] at hlen
        omega
      have hres' : arrResidue T' ≠ "]" := by
        rw [arrResidue_append] at hres
        exact hres
      rw [ih T' hlen' hres']
    · have hE' : pyEndswith T "[]" = false := by simpa using hE
      have hself : arrResidue T = T := arrResidue_eq_self hE'
      have hTne : T ≠ "]" := by rw [hself] at hres; exact hres
      rw [convert_unfold ("[" ++ T)]
      rw [if_neg (by simp [data_append])]
      rw [if_neg (fun hcontra => by
        rcases endswith_bracket_cons hcontra with h | h
        · exact hTne h
        · rw [h] at hE'; cases hE')]
      rw [if_pos (by simp [pyStartswith, data_append, isPre])]
      have hdrop : strDrop ("[" ++ T) 1 = T := by
        apply string_ext
        simp [strDrop, data_append]
      rw [hdrop]

/-- If `E` contains no `...` and does not end with `.`, the first occurrence
of `...` in `E ++ "..."` is exactly at the end of `E`. -/
theorem findDots_append (E : List Char)
    (hin : (findSub ['.', '.', '.'] E).isSome = false)
    (hend : isPre ['.'] E.reverse = false) :
    findSub ['.', '.', '.'] (E ++ ['.', '.', '.']) = some E.length := by
  induction E with
  | nil => simp [findSub, isPre]
  | cons c t ih =>
    have hnotpre : isPre ['.', '.', '.'] (c :: (t ++ ['.', '.', '.'])) = false := by
      cases hpre : isPre ['.', '.', '.'] (c :: (t ++ ['.', '.', '.'])) with
      | false => rfl
      | true =>
        exfalso
        simp only [List.cons_append, isPre, Bool.and_eq_true, beq_iff_eq] at hpre
        obtain ⟨hc, hpre⟩ := hpre
        cases t with
        | nil =>
          rw [← hc] at hend
          simp [isPre] at hend
        | cons d t' =>
          simp only [List.cons_append, isPre, Bool.and_eq_true, beq_iff_eq] at hpre
          obtain ⟨hd, hpre⟩ := hpre
          cases t' with
          | nil =>
            rw [← hc, ← hd] at hend
            simp [isPre] at hend
          | cons e t'' =>
            simp only [List.cons_append, isPre, Bool.and_eq_true, beq_iff_eq] at hpre
            obtain ⟨he, -⟩ := hpre
            have hdots : isPre ['.', '.', '.'] (c :: d :: e :: t'') = true := by
              simp [isPre, ← hc, ← hd, ← he]
            simp [findSub, hdots] at hin
    have hin' : (findSub ['.', '.', '.'] t).isSome = false := by
      simp only [findSub] at hin
      split at hin
      · simp at hin
      · simpa using hin
    have hend' : isPre ['.'] t.reverse = false := by
      cases ht : t.reverse with
      | nil => simp [isPre]
      | cons d u =>
        have hrev : (c :: t).reverse = d :: (u ++ [c]) := by simp [ht]
        rw [hrev] at hend
        simp only [isPre] at hend ⊢
        simpa using hend
    have hstep : findSub ['.', '.', '.'] (c :: (t ++ ['.', '.', '.']))
        = (findSub ['.', '.', '.'] (t ++ ['.', '.', '.'])).map (· + 1) := by
      simp only [findSub]
      rw [if_neg (by simp [hnotpre])]
    rw [List.cons_append, hstep, ih hin' hend']
    simp

/-- Claim C4: for every type name `T`, the converter satisfies
`convert(T ++ "[]") = "[" ++ convert T` (unconditionally) and
`convert("[" ++ T) = "[" ++ convert T` (for every `T` except the degenerate
bracket residue `"]"`, which no type name produces); nesting composes, so
`convert "String[][]" = "[[Ljava/lang/String;"`; and a variadic element type
`E` (one containing no `...`, not ending in `.` and not starting with `[`)
satisfies `convert(E ++ "...") = "[" ++ convert E`. -/
theorem c4_converter_array_rules :
    (∀ T : String, _convert_type_to_type_signature (T ++ "[]")
        = "[" ++ _convert_type_to_type_signature T)
    ∧ (∀ T : String, arrResidue T ≠ "]" →
        _convert_type_to_type_signature ("[" ++ T)
          = "[" ++ _convert_type_to_type_signature T)
    ∧ (∀ E : String, pyIn "..." E = false → pyEndswith E "." = false →
        pyStartswith E "[" = false →
        _convert_type_to_type_signature (E ++ "...")
          = "[" ++ _convert_type_to_type_signature E)
    ∧ _convert_type_to_type_signature "String[][]" = "[[Ljava/lang/String;" := by
  refine ⟨convert_trailing, ?_, ?_, by decide⟩
  · intro T h
    exact convert_leading_aux T.data.length T le_rfl h
  · intro E hin hend hstart
    rw [convert_unfold (E ++ "...")]
    rw [if_neg (by simp [data_append, dots_data])]
    rw [if_neg (by
      simp only [pyEndswith, isSuf, data_append, dots_data, brackets_data,
        List.reverse_append]
      simp [isPre])]
    rw [if_neg (by
      cases hd : E.data with
      | nil => simp [pyStartswith, data_append, hd, dots_data, isPre]
      | cons c t =>
        have : pyStartswith E "[" = false := hstart
        simp only [pyStartswith, hd, isPre] at this
        simp only [pyStartswith, data_append, hd, dots_data, List.cons_append, isPre]
        simpa using this)]
    have hfind : findSub "...".data (E ++ "...").data = some E.data.length := by
      rw [data_append, dots_data]
      exact findDots_append E.data (by simpa [pyIn, dots_data] using hin)
        (by simpa [pyEndswith, isSuf] using hend)
    rw [hfind]
    have htake : strTake (E ++ "...") E.data.length = E := by
      apply string_ext
      simp [strTake, data_append]
    exact congrArg (fun x => "[" ++ _convert_type_to_type_signature x) htake

/-- Witness for C4 at the element type `"String"`. -/
theorem c4_converter_array_rules_witness :
    _convert_type_to_type_signature ("[" ++ "String")
      = "[" ++ _convert_type_to_type_signature "String"
    ∧ _convert_type_to_type_signature ("String" ++ "...")
      = "[" ++ _convert_type_to_type_signature "String" :=
  ⟨c4_converter_array_rules.2.1 "String" (by decide),
   c4_converter_array_rules.2.2.1 "String" (by decide) (by decide) (by decide)⟩

/-! ## Claim C7: demangled class descriptors never keep `sym.`/`imp.` -/

theorem primitive_no_sym_imp {s p : String} (hp : primitiveMap s = some p) :
    pyStartswith p "sym." = false ∧ pyStartswith p "imp." = false := by
  unfold primitiveMap at hp
  split at hp <;> first
    | exact Option.noConfusion hp
    | (injection hp with hp; subst hp; exact ⟨rfl, rfl⟩)

/-- The type converter's output never begins with `sym.` or `imp.`: every
branch yields the empty string, a `[` prefix, a primitive code, or an
`L...;` descriptor. -/
theorem convert_no_sym_imp (s : String) :
    pyStartswith (_convert_type_to_type_signature s) "sym." = false
    ∧ pyStartswith (_convert_type_to_type_signature s) "imp." = false := by
  rw [convert_unfold s]
  split
  · rename_i h0
    constructor <;> simp [pyStartswith, h0, isPre]
  · split
    · exact ⟨rfl, rfl⟩
    · split
      · exact ⟨rfl, rfl⟩
      · split
        · exact ⟨rfl, rfl⟩
        · split
          · rename_i p hp
            exact primitive_no_sym_imp hp
          · split
            · exact ⟨rfl, rfl⟩
            · exact ⟨rfl, rfl⟩

theorem parseIsjTail_class (obj : IsjObj) (dex : Nat) (raw : String) (m : MethodObject)
    (h : parseIsjTail obj dex raw = .ok (some m)) :
    m.class_name = "" ∨ ∃ s, m.class_name = _convert_type_to_type_signature s := by
  unfold parseIsjTail at h
  cases hd : descriptor_to_androguard_format raw with
  | error e => rw [hd] at h; cases h
  | ok descriptor =>
    simp only [hd] at h
    by_cases hcl : obj.flagname = "sym.imp.clone"
    · rw [if_pos hcl] at h
      simp only [Except.ok.injEq, Option.some.injEq] at h
      subst h
      exact Or.inl rfl
    · rw [if_neg hcl] at h
      cases hu : lastUnderscoreMatch obj.flagname.data with
      | none => rw [hu] at h; simp at h
      | some mtext =>
        simp only [hu] at h
        simp only [Except.ok.injEq, Option.some.injEq] at h
        subst h
        exact Or.inr ⟨_, rfl⟩

theorem parse_class (obj : IsjObj) (dex : Nat) (m : MethodObject)
    (h : _parse_method_from_isj_obj obj dex = .ok (some m)) :
    m.class_name = "" ∨ ∃ s, m.class_name = _convert_type_to_type_signature s := by
  unfold _parse_method_from_isj_obj at h
  by_cases ht : obj.type ≠ some "FUNC" ∧ obj.type ≠ some "METH"
  · rw [if_pos ht] at h; simp at h
  · rw [if_neg ht] at h
    cases hp : findParenMatch obj.name.data with
    | none => rw [hp] at h; simp at h
    | some raw0 =>
      simp only [hp] at h
      by_cases hr : pyEndswith (String.mk raw0) ")" = true
      · rw [if_pos hr] at h
        cases hrt : findRetType obj.name.data with
        | none => rw [hrt] at h; simp at h
        | some rt =>
          simp only [hrt] at h
          exact parseIsjTail_class _ _ _ _ h
      · rw [if_neg hr] at h
        exact parseIsjTail_class _ _ _ _ h

/-- Claim C7: for every symbol record whose flag name begins with `sym.` or
`imp.` (possibly repeated), the demangler strips all leading prefixes before
conversion, so the declaring class descriptor of the resulting
MethodSignature never starts with either prefix. -/
theorem c7_demangler_prefixes :
    ∀ (obj : IsjObj) (dexindex : Nat) (m : MethodObject),
      (pyStartswith obj.flagname "sym." = true ∨ pyStartswith obj.flagname "imp." = true) →
      _parse_method_from_isj_obj obj dexindex = .ok (some m) →
      pyStartswith m.class_name "sym." = false
        ∧ pyStartswith m.class_name "imp." = false := by
  intro obj dexindex m _ h
  rcases parse_class obj dexindex m h with hempty | ⟨s, hs⟩
  · rw [hempty]
    exact ⟨rfl, rfl⟩
  · rw [hs]
    exact convert_no_sym_imp s

/-- Witness for C7 at a concrete `sym.`-prefixed symbol record. -/
theorem c7_demangler_prefixes_witness :
    pyStartswith ("sym.foo_method" : String) "sym." = true
    ∧ pyStartswith ("Ljava/lang/foo;" : String) "sym." = false
    ∧ pyStartswith ("Ljava/lang/foo;" : String) "imp." = false := by
  refine ⟨by decide, ?_⟩
  have h := c7_demangler_prefixes
    ⟨some "METH", "int Lcom.foo.method(int)", "method", false, "sym.foo_method", 100⟩ 0
    ⟨"Ljava/lang/foo;", "method", "(I)I", none, some ⟨100, 0, false⟩⟩
    (Or.inl (by decide)) (by decide)
  exact h

/-! ## Claim C5: `lowerfunc` offsets and multiplicity -/

theorem lowerXrefLoop_spec (resolve : Int → Except String (Option MethodObject))
    (off addr : Int) :
    ∀ (xs : List LowXref) (acc out : List (MethodObject × Int)),
      lowerXrefLoop resolve off addr xs acc = .ok out →
      out.length = acc.length + (xs.filter (resolvedB resolve)).length
        ∧ ∀ p ∈ out, p ∈ acc ∨ p.2 = off - addr := by
  intro xs
  induction xs with
  | nil =>
    intro acc out h
    cases h
    exact ⟨by simp, fun p hp => Or.inl hp⟩
  | cons x t ih =>
    intro acc out h
    unfold lowerXrefLoop at h
    by_cases ht : x.type = "CALL"
    · rw [if_pos ht] at h
      cases hres : resolve x.addr with
      | error e => rw [hres] at h; cases h
      | ok v =>
        cases v with
        | none =>
          rw [hres] at h
          obtain ⟨h1, h2⟩ := ih acc out h
          refine ⟨?_, h2⟩
          have : resolvedB resolve x = false := by simp [resolvedB, hres]
          simp [List.filter_cons, this, h1]
        | some m =>
          rw [hres] at h
          obtain ⟨h1, h2⟩ := ih (acc ++ [(m, off - addr)]) out h
          have hx : resolvedB resolve x = true := by simp [resolvedB, ht, hres]
          constructor
          · simp [List.filter_cons, hx, h1]
            omega
          · intro p hp
            rcases h2 p hp with hin | hoff
            · rcases List.mem_append.mp hin with hacc | hsing
              · exact Or.inl hacc
              · right
                simp at hsing
                rw [hsing]
            · exact Or.inr hoff
    · rw [if_neg ht] at h
      obtain ⟨h1, h2⟩ := ih acc out h
      refine ⟨?_, h2⟩
      have : resolvedB resolve x = false := by simp [resolvedB, ht]
      simp [List.filter_cons, this, h1]

theorem lowerLoop_spec (resolve : Int → Except String (Option MethodObject)) (addr : Int) :
    ∀ (ops : List Ins) (acc out : List (MethodObject × Int)),
      lowerLoop resolve addr ops acc = .ok out →
      out.length = acc.length + resolvedCallSiteCount resolve ops
        ∧ ∀ p ∈ out, p ∈ acc ∨ ∃ ins ∈ ops, p.2 = ins.offset - addr := by
  intro ops
  induction ops with
  | nil =>
    intro acc out h
    cases h
    exact ⟨by simp [resolvedCallSiteCount], fun p hp => Or.inl hp⟩
  | cons ins t ih =>
    intro acc out h
    unfold lowerLoop at h
    cases hx : ins.xrefs_from with
    | none =>
      simp only [hx] at h
      obtain ⟨h1, h2⟩ := ih acc out h
      refine ⟨by simpa [resolvedCallSiteCount, hx] using h1, ?_⟩
      intro p hp
      rcases h2 p hp with hin | ⟨ins', hmem, hoff⟩
      · exact Or.inl hin
      · exact Or.inr ⟨ins', List.mem_cons_of_mem _ hmem, hoff⟩
    | some xs =>
      simp only [hx] at h
      cases hinner : lowerXrefLoop resolve ins.offset addr xs acc with
      | error e => rw [hinner] at h; cases h
      | ok acc' =>
        rw [hinner] at h
        obtain ⟨g1, g2⟩ := lowerXrefLoop_spec resolve ins.offset addr xs acc acc' hinner
        obtain ⟨h1, h2⟩ := ih acc' out h
        constructor
        · rw [h1, g1]
          simp [resolvedCallSiteCount, hx]
          omega
        · intro p hp
          rcases h2 p hp with hin | ⟨ins', hmem, hoff⟩
          · rcases g2 p hin with hacc | hoff
            · exact Or.inl hacc
            · exact Or.inr ⟨ins, List.mem_cons_self _ _, hoff⟩
          · exact Or.inr ⟨ins', List.mem_cons_of_mem _ hmem, hoff⟩

/-- Claim C5: on a successful run, `lowerfunc` returns one `(callee,
offset)` pair per resolved call site of the method's instruction flow — the
list is not deduplicated, so its length equals the number of resolved
`CALL` xrefs — and each offset is the call-site address minus the method's
start address, hence non-negative whenever every instruction of the
well-formed flow lies at or after the method start. -/
theorem c5_lowerfunc_offsets :
    ∀ (sessions : Nat → RzSession) (m : MethodObject) (cache : RizinCache)
      (l : List (MethodObject × Int)),
      m.cache = some cache → lowerfunc sessions m = .ok l →
      l.length = resolvedCallSiteCount (_get_method_by_address sessions)
          ((sessions cache.dexindex).pdfj cache.address)
        ∧ ((∀ ins ∈ (sessions cache.dexindex).pdfj cache.address,
              cache.address ≤ ins.offset) →
            ∀ p ∈ l, 0 ≤ p.2) := by
  intro sessions m cache l hc hok
  unfold lowerfunc at hok
  rw [hc] at hok
  obtain ⟨h1, h2⟩ := lowerLoop_spec (_get_method_by_address sessions) cache.address
    ((sessions cache.dexindex).pdfj cache.address) [] l hok
  refine ⟨by simpa using h1, ?_⟩
  intro hwf p hp
  rcases h2 p hp with hin | ⟨ins, hmem, hoff⟩
  · cases hin
  · have := hwf ins hmem
    omega

/-- Witness for C5: a concrete two-call flow, with the same callee recorded
twice at distinct non-negative offsets. -/
theorem c5_lowerfunc_offsets_witness :
    ([(c5m, 2), (c5m, 4)] : List (MethodObject × Int)).length
      = resolvedCallSiteCount (_get_method_by_address c5sess) ((c5sess 0).pdfj 10)
    ∧ ∀ p ∈ ([(c5m, 2), (c5m, 4)] : List (MethodObject × Int)), 0 ≤ p.2 := by
  have h := c5_lowerfunc_offsets c5sess c5parent ⟨10, 0, false⟩ [(c5m, 2), (c5m, 4)]
    rfl (by decide)
  exact ⟨h.1, h.2 (by decide)⟩

/-- Witness for C10: two session families whose symbol tables differ at
sub-image 1 but agree at sub-image 0 resolve a method of sub-image 1
identically. -/
theorem c10_dex0_resolution_witness :
    upperfunc (fun i => match i with
        | 0 => ⟨fun _ => [], fun _ => [⟨"CALL", some 4⟩], fun _ => []⟩
        | _ + 1 => ⟨fun _ => [⟨some "FUNC", "a", "a", false, "f", 0⟩],
                    fun _ => [⟨"CALL", some 4⟩], fun _ => []⟩)
      ⟨"Lp;", "p", "()V", none, some ⟨9, 1, false⟩⟩
    = upperfunc (fun i => match i with
        | 0 => ⟨fun _ => [], fun _ => [⟨"CALL", some 4⟩], fun _ => []⟩
        | _ + 1 => ⟨fun _ => [], fun _ => [⟨"CALL", some 4⟩], fun _ => []⟩)
      ⟨"Lp;", "p", "()V", none, some ⟨9, 1, false⟩⟩ :=
  (c10_dex0_resolution _ _ rfl
    (fun i => match i with | 0 => rfl | _ + 1 => rfl)
    (fun i => match i with | 0 => rfl | _ + 1 => rfl)).2.1
    ⟨"Lp;", "p", "()V", none, some ⟨9, 1, false⟩⟩

/-! ## Claim C2: the wrapper extractor's match rule -/

theorem pyLookup_setAssoc_self (l : List (String × WrapperVal)) (k : String) (v : WrapperVal) :
    pyLookup (setAssoc l k v) k = some v := by
  induction l with
  | nil => simp [setAssoc, pyLookup]
  | cons p t ih =>
    by_cases hk : p.1 = k
    · simp [setAssoc, hk, pyLookup]
    · simp [setAssoc, hk, pyLookup, ih]

theorem pyLookup_setAssoc_ne (l : List (String × WrapperVal)) (k k' : String)
    (v : WrapperVal) (h : k ≠ k') :
    pyLookup (setAssoc l k v) k' = pyLookup l k' := by
  induction l with
  | nil => simp [setAssoc, pyLookup, h]
  | cons p t ih =>
    by_cases hk : p.1 = k
    · subst hk
      simp [setAssoc, pyLookup, h]
    · simp only [setAssoc, if_neg hk]
      by_cases hk' : p.1 = k'
      · simp [pyLookup, hk']
      · simp [pyLookup, hk', ih]

theorem rfind_isSome_of_find {sub l : List Char}
    (h : (findSub sub l).isSome = true) : ∃ i, rfindSub sub l = some i := by
  induction l with
  | nil =>
    simp only [findSub] at h
    simp only [rfindSub]
    split at h
    · rename_i hp
      exact ⟨0, by simp [hp]⟩
    · simp at h
  | cons a t ih =>
    simp only [rfindSub]
    cases hr : rfindSub sub t with
    | some i => exact ⟨i + 1, rfl⟩
    | none =>
      simp only [findSub] at h
      split at h
      · rename_i hp
        exact ⟨0, by simp [hp]⟩
      · have : (findSub sub t).isSome = true := by simpa using h
        obtain ⟨i, hi⟩ := ih this
        rw [hi] at hr
        cases hr

theorem evidencePair_shape {a b : String} {v1 v2 : WrapperVal}
    (h : evidencePair a b = .ok (v1, v2)) :
    (∃ ls, v1 = WrapperVal.vlist ls) ∧ ∃ s, v2 = WrapperVal.vstr s := by
  unfold evidencePair at h
  cases hp : _parse_smali a with
  | error e => rw [hp] at h; cases h
  | ok bc =>
    simp only [hp] at h
    cases hc : convert_bytecode_to_list bc with
    | error e => simp only [hc] at h; exact Except.noConfusion h
    | ok l =>
      simp only [hc] at h
      simp only [Except.ok.injEq, Prod.mk.injEq] at h
      exact ⟨⟨l, h.1.symm⟩, ⟨hexSpaced b, h.2.symm⟩⟩

/-- Invariant of the `get_wrapper_smali` scan loop for the `first` evidence
fields, under the assumption that every invoke instruction's text contains a
`;` (so the stale `instrcution_string` is never consulted across
instructions): either no instruction matches the first pattern and the two
`first` fields are untouched, or some matching instruction's evidence is
recorded in them. -/
theorem wrapperLoop_first_spec (fp sp : String) :
    ∀ (ops : List Ins) (res : List (String × WrapperVal)) (stale : Option String)
      (out : List (String × WrapperVal)),
      (∀ ins ∈ ops, invokeIns ins = true → pyIn ";" ins.disasm = true) →
      wrapperLoop fp sp ops res stale = .ok out →
      (pyLookup out "first" = pyLookup res "first"
        ∧ pyLookup out "first_hex" = pyLookup res "first_hex"
        ∧ ∀ ins ∈ ops, invokeIns ins = true →
            pyIn fp (truncAtLastSemi ins.disasm) = false)
      ∨ (∃ ins ∈ ops, invokeIns ins = true
          ∧ pyIn fp (truncAtLastSemi ins.disasm) = true
          ∧ ∃ v1 v2, evidencePair (truncAtLastSemi ins.disasm) ins.bytes = .ok (v1, v2)
            ∧ pyLookup out "first" = some v1 ∧ pyLookup out "first_hex" = some v2) := by
  intro ops
  induction ops with
  | nil =>
    intro res stale out _ hok
    cases hok
    exact Or.inl ⟨rfl, rfl, by simp⟩
  | cons ins rest ih =>
    intro res stale out hsemi hok
    unfold wrapperLoop at hok
    by_cases hi : pyStartswith ins.disasm "invoke" = true
    · rw [if_pos hi] at hok
      have hsem : pyIn ";" ins.disasm = true := hsemi ins (List.mem_cons_self _ _) hi
      obtain ⟨idx, hidx⟩ := @rfind_isSome_of_find ";".data ins.disasm.data hsem
      have htr : truncAtLastSemi ins.disasm = strTake ins.disasm idx := by
        unfold truncAtLastSemi
        rw [hidx]
      simp only [hsem, if_true, hidx, ite_true] at hok
      by_cases hm : pyIn fp (strTake ins.disasm idx) = true
      · simp only [hm, if_true, ite_true] at hok
        cases hev : evidencePair (strTake ins.disasm idx) ins.bytes with
        | error e => simp only [hev] at hok; exact Except.noConfusion hok
        | ok vp =>
          obtain ⟨v1, v2⟩ := vp
          simp only [hev] at hok
          by_cases hm2 : pyIn sp (strTake ins.disasm idx) = true
          · simp only [hm2, if_true, ite_true] at hok
            set r1 := setAssoc (setAssoc res "first" v1) "first_hex" v2 with hr1
            set r2 := setAssoc (setAssoc r1 "second" v1) "second_hex" v2 with hr2
            have hl1 : pyLookup r2 "first" = some v1 := by
              rw [hr2, pyLookup_setAssoc_ne _ _ _ _ (by decide),
                  pyLookup_setAssoc_ne _ _ _ _ (by decide), hr1,
                  pyLookup_setAssoc_ne _ _ _ _ (by decide),
                  pyLookup_setAssoc_self]
            have hl2 : pyLookup r2 "first_hex" = some v2 := by
              rw [hr2, pyLookup_setAssoc_ne _ _ _ _ (by decide),
                  pyLookup_setAssoc_ne _ _ _ _ (by decide), hr1,
                  pyLookup_setAssoc_self]
            rcases ih r2 (some (strTake ins.disasm idx)) out
                (fun i hi => hsemi i (List.mem_cons_of_mem _ hi)) hok with
              ⟨e1, e2, _⟩ | ⟨ins', hmem, hrest⟩
            · exact Or.inr ⟨ins, List.mem_cons_self _ _, hi, by rw [htr]; exact hm,
                v1, v2, by rw [htr]; exact hev, e1.trans hl1, e2.trans hl2⟩
            · exact Or.inr ⟨ins', List.mem_cons_of_mem _ hmem, hrest⟩
          · simp only [hm2, if_false, ite_false] at hok
            set r1 := setAssoc (setAssoc res "first" v1) "first_hex" v2 with hr1
            have hl1 : pyLookup r1 "first" = some v1 := by
              rw [hr1, pyLookup_setAssoc_ne _ _ _ _ (by decide), pyLookup_setAssoc_self]
            have hl2 : pyLookup r1 "first_hex" = some v2 := by
              rw [hr1, pyLookup_setAssoc_self]
            rcases ih r1 (some (strTake ins.disasm idx)) out
                (fun i hi => hsemi i (List.mem_cons_of_mem _ hi)) hok with
              ⟨e1, e2, _⟩ | ⟨ins', hmem, hrest⟩
            · exact Or.inr ⟨ins, List.mem_cons_self _ _, hi, by rw [htr]; exact hm,
                v1, v2, by rw [htr]; exact hev, e1.trans hl1, e2.trans hl2⟩
            · exact Or.inr ⟨ins', List.mem_cons_of_mem _ hmem, hrest⟩
      · rw [Bool.not_eq_true] at hm
        simp only [hm, Bool.false_eq_true, if_false, ite_false] at hok
        by_cases hm2 : pyIn sp (strTake ins.disasm idx) = true
        · simp only [hm2, if_true, ite_true] at hok
          cases hev2 : evidencePair (strTake ins.disasm idx) ins.bytes with
          | error e => simp only [hev2] at hok; exact Except.noConfusion hok
          | ok wp =>
            obtain ⟨w1, w2⟩ := wp
            simp only [hev2] at hok
            set r2 := setAssoc (setAssoc res "second" w1) "second_hex" w2 with hr2
            have hl1 : pyLookup r2 "first" = pyLookup res "first" := by
              rw [hr2, pyLookup_setAssoc_ne _ _ _ _ (by decide),
                  pyLookup_setAssoc_ne _ _ _ _ (by decide)]
            have hl2 : pyLookup r2 "first_hex" = pyLookup res "first_hex" := by
              rw [hr2, pyLookup_setAssoc_ne _ _ _ _ (by decide),
                  pyLookup_setAssoc_ne _ _ _ _ (by decide)]
            rcases ih r2 (some (strTake ins.disasm idx)) out
                (fun i hi => hsemi i (List.mem_cons_of_mem _ hi)) hok with
              ⟨e1, e2, hno⟩ | ⟨ins', hmem, hrest⟩
            · refine Or.inl ⟨e1.trans hl1, e2.trans hl2, ?_⟩
              intro ins' hmem' hinv
              rcases List.mem_cons.mp hmem' with rfl | hmem'
              · rw [htr]; exact hm
              · exact hno ins' hmem' hinv
            · exact Or.inr ⟨ins', List.mem_cons_of_mem _ hmem, hrest⟩
        · rw [Bool.not_eq_true] at hm2
          simp only [hm2, Bool.false_eq_true, if_false, ite_false] at hok
          rcases ih res (some (strTake ins.disasm idx)) out
              (fun i hi => hsemi i (List.mem_cons_of_mem _ hi)) hok with
            ⟨e1, e2, hno⟩ | ⟨ins', hmem, hrest⟩
          · refine Or.inl ⟨e1, e2, ?_⟩
            intro ins' hmem' hinv
            rcases List.mem_cons.mp hmem' with rfl | hmem'
            · rw [htr]; exact hm
            · exact hno ins' hmem' hinv
          · exact Or.inr ⟨ins', List.mem_cons_of_mem _ hmem, hrest⟩
    · rw [if_neg hi] at hok
      rcases ih res stale out (fun i hmem => hsemi i (List.mem_cons_of_mem _ hmem)) hok with
        ⟨e1, e2, hno⟩ | ⟨ins', hmem, hrest⟩
      · refine Or.inl ⟨e1, e2, ?_⟩
        intro ins' hmem' hinv
        rcases List.mem_cons.mp hmem' with rfl | hmem'
        · exact absurd hinv hi
        · exact hno ins' hmem' hinv
      · exact Or.inr ⟨ins', List.mem_cons_of_mem _ hmem, hrest⟩

/-- Claim C2, counterexample: rizin disassembly text references methods as
`class.name(descriptor)` (class name without its trailing `;`), so the
extractor records evidence for an instruction that does not contain the
claim's `class->name(descriptor)` signature text at all. -/
theorem c2_wrapper_match_counterexample :
    get_wrapper_smali c2sess c2parent c2first c2second =
      .ok ([("first", WrapperVal.vlist [some "invoke-virtual", some "v1",
              some "Lfoo->bar(Ljava/lang/String;)V"]),
            ("first_hex", WrapperVal.vstr "6e 20"),
            ("second", WrapperVal.vnone), ("second_hex", WrapperVal.vnone)], true)
    ∧ pyIn (specSignatureText c2first) c2ins.disasm = false := by
  refine ⟨by decide, by decide⟩

/-- Claim C2, amended: for each instruction whose disassembly text starts
with `invoke`, the extractor decides a match for the first target by exact
substring containment of the pattern `class_name[:-1] + "." + name +
descriptor` inside the instruction text truncated at its last `;`; on a
match it records the truncated text parsed into
`[mnemonic] + registers + [parameter]` together with the instruction's byte
string split into two-character groups joined by spaces (stated for flows
whose invoke instructions all contain a `;`, so the stale truncated text of
a previous instruction is never consulted). -/
theorem c2_wrapper_match_amended :
    ∀ (sessions : Nat → RzSession) (parent first second : MethodObject)
      (cache : RizinCache) (r : List (String × WrapperVal)),
      parent.cache = some cache → cache.is_imported = false →
      (∀ ins ∈ (sessions cache.dexindex).pdfj cache.address,
          invokeIns ins = true → pyIn ";" ins.disasm = true) →
      get_wrapper_smali sessions parent first second = .ok (r, true) →
      ((pyLookup r "first" ≠ some WrapperVal.vnone ↔
          ∃ ins ∈ (sessions cache.dexindex).pdfj cache.address,
            invokeIns ins = true
              ∧ pyIn (rzSearchPattern first) (truncAtLastSemi ins.disasm) = true)
        ∧ ∀ v, pyLookup r "first" = some v → v = WrapperVal.vnone ∨
            ∃ ins ∈ (sessions cache.dexindex).pdfj cache.address,
              invokeIns ins = true
                ∧ pyIn (rzSearchPattern first) (truncAtLastSemi ins.disasm) = true
                ∧ ∃ v2, evidencePair (truncAtLastSemi ins.disasm) ins.bytes = .ok (v, v2)
                  ∧ pyLookup r "first_hex" = some v2) := by
  intro sessions parent first second cache r hc him hsemi hok
  unfold get_wrapper_smali at hok
  simp only [hc] at hok
  rw [if_neg (by simp [him])] at hok
  cases hw : wrapperLoop (rzSearchPattern first) (rzSearchPattern second)
      ((sessions cache.dexindex).pdfj cache.address)
      [("first", WrapperVal.vnone), ("first_hex", WrapperVal.vnone),
       ("second", WrapperVal.vnone), ("second_hex", WrapperVal.vnone)] none with
  | error e =>
    rw [hw] at hok
    simp [rzSearchPattern] at hok
  | ok r' =>
    rw [hw] at hok
    simp only [rzSearchPattern, Except.ok.injEq, Prod.mk.injEq, and_true] at hok
    subst hok
    have spec := wrapperLoop_first_spec (rzSearchPattern first) (rzSearchPattern second)
      ((sessions cache.dexindex).pdfj cache.address)
      [("first", WrapperVal.vnone), ("first_hex", WrapperVal.vnone),
       ("second", WrapperVal.vnone), ("second_hex", WrapperVal.vnone)] none r' hsemi
      (by simpa [rzSearchPattern] using hw)
    constructor
    · constructor
      · intro hne
        rcases spec with ⟨e1, _, _⟩ | ⟨ins, hmem, hinv, hmatch, _⟩
        · exact absurd (e1.trans (by decide)) hne
        · exact ⟨ins, hmem, hinv, hmatch⟩
      · intro ⟨ins, hmem, hinv, hmatch⟩
        rcases spec with ⟨_, _, hno⟩ | ⟨ins', _, _, _, v1, v2, hev, hl1, _⟩
        · rw [hno ins hmem hinv] at hmatch
          cases hmatch
        · rw [hl1]
          obtain ⟨⟨ls, rfl⟩, _⟩ := evidencePair_shape hev
          simp
    · intro v hv
      rcases spec with ⟨e1, _, _⟩ | ⟨ins, hmem, hinv, hmatch, v1, v2, hev, hl1, hl2⟩
      · left
        have : pyLookup r' "first" = some WrapperVal.vnone := e1.trans (by decide)
        rw [this] at hv
        cases hv
        rfl
      · right
        rw [hl1] at hv
        cases hv
        exact ⟨ins, hmem, hinv, hmatch, v2, hev, hl2⟩

/-- Witness for the C2 amended claim at a concrete matching flow. -/
theorem c2_wrapper_match_witness :
    ((pyLookup [("first", WrapperVal.vlist [some "invoke-static", some "v2",
          some "Lqq->mm()V"]),
        ("first_hex", WrapperVal.vstr "71 00"),
        ("second", WrapperVal.vnone), ("second_hex", WrapperVal.vnone)] "first"
        ≠ some WrapperVal.vnone ↔
      ∃ ins ∈ (c2wsess (0 : Nat)).pdfj 10,
        invokeIns ins = true
          ∧ pyIn (rzSearchPattern c2wfirst) (truncAtLastSemi ins.disasm) = true)
    ∧ ∀ v, pyLookup [("first", WrapperVal.vlist [some "invoke-static", some "v2",
          some "Lqq->mm()V"]),
        ("first_hex", WrapperVal.vstr "71 00"),
        ("second", WrapperVal.vnone), ("second_hex", WrapperVal.vnone)] "first" = some v →
        v = WrapperVal.vnone ∨
        ∃ ins ∈ (c2wsess (0 : Nat)).pdfj 10,
          invokeIns ins = true
            ∧ pyIn (rzSearchPattern c2wfirst) (truncAtLastSemi ins.disasm) = true
            ∧ ∃ v2, evidencePair (truncAtLastSemi ins.disasm) ins.bytes = .ok (v, v2)
              ∧ pyLookup [("first", WrapperVal.vlist [some "invoke-static", some "v2",
                    some "Lqq->mm()V"]),
                  ("first_hex", WrapperVal.vstr "71 00"),
                  ("second", WrapperVal.vnone), ("second_hex", WrapperVal.vnone)]
                  "first_hex" = some v2) :=
  c2_wrapper_match_amended c2wsess c2parent c2wfirst c2second ⟨10, 0, false⟩ _
    rfl rfl (by decide) (by decide)

end Quark
